import Mathlib

/-!
Verification of the schema-driven log storage core of the `blksails/logs`
repository, by shallow embedding of its Go source into Lean.

Modelled components:
* the field/schema model and its validators (`internal/models/schema.go`);
* the type coercion engine `convertFieldValue` (API layer);
* the per-record validator `Schema.ValidateLogEntry`;
* the YAML document round trip (`SchemaFromYAML` / `Schema.ToYAML`),
  modelled at the level of the decoded document structure;
* the batch-insert paths of the Postgres, MySQL and ClickHouse storage
  drivers over an explicit database-state model;
* the schema manager's file-removal eviction.

Go `interface{}` values are embedded as the inductive `GoValue`; `float64`
is modelled as an exact rational (adequate for the properties proved here,
none of which depends on IEEE rounding); `time.Time` is modelled as an
integer number of nanoseconds with `0` standing for Go's zero time;
`time.Duration` as an integer number of nanoseconds.  Go standard-library
helpers (`strconv`, `time` parsing, `fmt`, `encoding/json`) are modelled by
executable Lean functions marked as such below.
-/

namespace BlkLogs

/-- Field types, `models.FieldType` (a Go string type).  Modelled as `String`
so that invalid and empty type names are representable, as in the source. -/
abbrev FieldType := String

def fieldTypeString : FieldType := "string"
def fieldTypeInt : FieldType := "int"
def fieldTypeFloat : FieldType := "float"
def fieldTypeBool : FieldType := "bool"
def fieldTypeDateTime : FieldType := "datetime"
def fieldTypeTime : FieldType := "time"
def fieldTypeDuration : FieldType := "duration"
def fieldTypeJSON : FieldType := "json"
def fieldTypeRest : FieldType := "rest"
def fieldTypeObject : FieldType := "object"
def fieldTypeArray : FieldType := "array"

/-- Go time.Time, modelled as nanoseconds; `0` is Go's zero time value. -/
abbrev GoTime := Int

/-- Go time.Duration, in nanoseconds. -/
abbrev GoDuration := Int

def nsPerMillisecond : Int := 1000000
def nsPerSecond : Int := 1000000000
def nsPerMinute : Int := 60 * nsPerSecond
def nsPerHour : Int := 60 * nsPerMinute

/-- Embedding of Go `interface{}` values as they occur in log records.
`vInt`/`vInt32`/`vInt64` mirror Go's distinct machine-integer types because
the source type-switches distinguish them; `vFloat` models `float64` as an
exact rational; `vMap` models `map[string]interface\x7b\x7d` as an
association list (Go map iteration order is abstracted as list order). -/
inductive GoValue where
  | vNil : GoValue
  | vStr : String → GoValue
  | vInt : Int → GoValue
  | vInt32 : Int → GoValue
  | vInt64 : Int → GoValue
  | vFloat32 : Rat → GoValue
  | vFloat : Rat → GoValue
  | vBool : Bool → GoValue
  | vTime : GoTime → GoValue
  | vDur : GoDuration → GoValue
  | vMap : List (String × GoValue) → GoValue
  | vArr : List GoValue → GoValue

/-- `%T` type name of a value, as printed by `fmt.Errorf` in the source. -/
def goTypeName : GoValue → String
  | .vNil => "<nil>"
  | .vStr _ => "string"
  | .vInt _ => "int"
  | .vInt32 _ => "int32"
  | .vInt64 _ => "int64"
  | .vFloat32 _ => "float32"
  | .vFloat _ => "float64"
  | .vBool _ => "bool"
  | .vTime _ => "time.Time"
  | .vDur _ => "time.Duration"
  | .vMap _ => "map[string]interface \x7b\x7d"
  | .vArr _ => "[]interface \x7b\x7d"

/-- Is this character an ASCII decimal digit? -/
def isDigitChar (c : Char) : Bool := '0' ≤ c && c ≤ '9'

def digitVal (c : Char) : Int := Int.ofNat (c.toNat - '0'.toNat)

/-- Parse a non-empty all-digit string to a natural number value. -/
def digitsToInt : List Char → Option Int
  | [] => none
  | cs =>
    if cs.all isDigitChar then
      some (cs.foldl (fun acc c => acc * 10 + digitVal c) 0)
    else none

/-- Models Go `strconv.ParseInt(s, 10, 64)`: optional sign, decimal digits,
64-bit range check. -/
def goParseInt (s : String) : Option Int :=
  let cs := s.toList
  let (neg, body) :=
    match cs with
    | '-' :: rest => (true, rest)
    | '+' :: rest => (false, rest)
    | rest => (false, rest)
  match digitsToInt body with
  | none => none
  | some n =>
    let v := if neg then -n else n
    if -(2 ^ 63) ≤ v ∧ v < 2 ^ 63 then some v else none

/-- Models Go `strconv.ParseFloat(s, 64)` into an exact rational: optional
sign, decimal digits with optional fractional part.  The exponent syntax and
IEEE rounding of the real parser are not needed by the proved properties. -/
def goParseFloat (s : String) : Option Rat :=
  let cs := s.toList
  let (neg, body) :=
    match cs with
    | '-' :: rest => (true, rest)
    | '+' :: rest => (false, rest)
    | rest => (false, rest)
  let intPart := body.takeWhile isDigitChar
  let rest := body.drop intPart.length
  let withVal (q : Rat) : Option Rat := some (if neg then -q else q)
  match rest with
  | [] =>
    match digitsToInt intPart with
    | some n => withVal (n : Rat)
    | none => none
  | '.' :: frac =>
    if intPart.isEmpty ∨ frac.isEmpty ∨ ¬ frac.all isDigitChar then none
    else
      match digitsToInt intPart, digitsToInt frac with
      | some n, some f => withVal ((n : Rat) + (f : Rat) / ((10 : Rat) ^ frac.length))
      | _, _ => none
  | _ => none

/-- Models Go `strconv.ParseBool`: accepts 1, t, T, TRUE, true, True and the
corresponding false forms. -/
def goParseBool (s : String) : Option Bool :=
  if s = "1" ∨ s = "t" ∨ s = "T" ∨ s = "TRUE" ∨ s = "true" ∨ s = "True" then some true
  else if s = "0" ∨ s = "f" ∨ s = "F" ∨ s = "FALSE" ∨ s = "false" ∨ s = "False" then some false
  else none

/-- Two-digit decimal field of a clock string. -/
def twoDigits : List Char → Option Int
  | [a, b] => if isDigitChar a && isDigitChar b then some (digitVal a * 10 + digitVal b) else none
  | _ => none

/-- Models Go `time.Parse("15:04:05", s)`: an `HH:MM:SS` wall-clock string,
mapped to nanoseconds from the zero time (the reference date collapses to the
zero date, as in Go). -/
def goParseClock (s : String) : Option GoTime :=
  match s.toList with
  | [h1, h2, ':', m1, m2, ':', s1, s2] =>
    match twoDigits [h1, h2], twoDigits [m1, m2], twoDigits [s1, s2] with
    | some h, some m, some sec =>
      if h < 24 ∧ m < 60 ∧ sec < 60 then
        some ((h * 3600 + m * 60 + sec) * nsPerSecond)
      else none
    | _, _, _ => none
  | _ => none

/-- Number of days from Go's zero date (0001-01-01) to 1st January of `y`. -/
def daysToYear (y : Int) : Int :=
  let n := y - 1
  n * 365 + n / 4 - n / 100 + n / 400

def isLeapYear (y : Int) : Bool :=
  (y % 4 = 0 && y % 100 ≠ 0) || y % 400 = 0

def daysBeforeMonth (leap : Bool) (m : Int) : Int :=
  let table : List Int := [0, 31, 59, 90, 120, 151, 181, 212, 243, 273, 304, 334]
  let base := (table.drop (m - 1).toNat).headD 0
  if leap ∧ m > 2 then base + 1 else base

/-- Models Go `time.Parse(time.RFC3339, s)` for the `...Z` form:
`YYYY-MM-DDTHH:MM:SSZ`, mapped to nanoseconds since the zero time.  Offset
and fractional-second forms of the real parser are not needed by the proved
properties. -/
def goParseRFC3339 (s : String) : Option GoTime :=
  match s.toList with
  | [y1, y2, y3, y4, '-', mo1, mo2, '-', d1, d2, 'T',
     h1, h2, ':', mi1, mi2, ':', s1, s2, 'Z'] =>
    if [y1, y2, y3, y4].all isDigitChar then
      match digitsToInt [y1, y2, y3, y4], twoDigits [mo1, mo2], twoDigits [d1, d2],
            twoDigits [h1, h2], twoDigits [mi1, mi2], twoDigits [s1, s2] with
      | some y, some mo, some d, some h, some mi, some sec =>
        if 1 ≤ mo ∧ mo ≤ 12 ∧ 1 ≤ d ∧ d ≤ 31 ∧ h < 24 ∧ mi < 60 ∧ sec < 60 then
          let days := daysToYear y + daysBeforeMonth (isLeapYear y) mo + (d - 1)
          some (((days * 86400) + h * 3600 + mi * 60 + sec) * nsPerSecond)
        else none
      | _, _, _, _, _, _ => none
    else none
  | _ => none

/-- One `digits[.digits]unit` leg of a Go duration string; returns the value
in nanoseconds and the remaining characters. -/
def goDurationLeg (cs : List Char) : Option (Int × List Char) :=
  let intPart := cs.takeWhile isDigitChar
  let rest := cs.drop intPart.length
  let (fracPart, rest2) :=
    match rest with
    | '.' :: r => (r.takeWhile isDigitChar, r.drop (r.takeWhile isDigitChar).length)
    | r => ([], r)
  if intPart.isEmpty ∧ fracPart.isEmpty then none
  else
    let unitAndRest : Option (Int × List Char) :=
      match rest2 with
      | 'n' :: 's' :: r => some (1, r)
      | 'u' :: 's' :: r => some (1000, r)
      | 'µ' :: 's' :: r => some (1000, r)
      | 'm' :: 's' :: r => some (nsPerMillisecond, r)
      | 's' :: r => some (nsPerSecond, r)
      | 'm' :: r => some (nsPerMinute, r)
      | 'h' :: r => some (nsPerHour, r)
      | _ => none
    match unitAndRest with
    | none => none
    | some (unit, r) =>
      let whole := (digitsToInt intPart).getD 0
      let frac :=
        match digitsToInt fracPart with
        | some f => f * unit / (10 : Int) ^ fracPart.length
        | none => 0
      some (whole * unit + frac, r)

def goDurationLegs : List Char → Int → Nat → Option Int
  | [], acc, _ => some acc
  | cs, acc, Nat.succ fuel =>
    match goDurationLeg cs with
    | none => none
    | some (v, rest) =>
      if rest.length < cs.length then goDurationLegs rest (acc + v) fuel
      else none
  | _, _, 0 => none

/-- Models Go `time.ParseDuration`: optional sign, then one or more
`digits[.digits]unit` legs with units ns, us, µs, ms, s, m, h; the bare
string `0` is also accepted. -/
def goParseDuration (s : String) : Option GoDuration :=
  let cs := s.toList
  let (neg, body) :=
    match cs with
    | '-' :: rest => (true, rest)
    | '+' :: rest => (false, rest)
    | rest => (false, rest)
  if body = ['0'] then some 0
  else if body.isEmpty then none
  else
    match goDurationLegs body 0 (body.length + 1) with
    | none => none
    | some v => some (if neg then -v else v)

/-- Truncation of a rational toward zero, as Go's `int64(float64)`
conversion does. -/
def truncRat (q : Rat) : Int :=
  if q ≥ 0 then q.floor else q.ceil

/-- Digits of a natural number. -/
def natToString (n : Nat) : String := toString n

/-- Decimal rendering of an integer. -/
def intToString (i : Int) : String :=
  if i < 0 then "-" ++ natToString (-i).toNat else natToString i.toNat

/-- Models the default `fmt.Sprintf("%v", x)` rendering used by the string
coercion branch.  The properties proved here depend only on its type
(`GoValue → String`), not on the exact rendering of composite values. -/
def goSprintf : GoValue → String
  | .vNil => "<nil>"
  | .vStr s => s
  | .vInt n => intToString n
  | .vInt32 n => intToString n
  | .vInt64 n => intToString n
  | .vFloat32 q => intToString q.num ++ "/" ++ natToString q.den
  | .vFloat q => intToString q.num ++ "/" ++ natToString q.den
  | .vBool b => if b then "true" else "false"
  | .vTime t => intToString t
  | .vDur d => intToString d
  | .vMap _ => "map[...]"
  | .vArr _ => "[...]"

/-- JSON string escaping: quotes, backslashes and control characters. -/
def jsonEscapeChar (c : Char) : List Char :=
  if c = '"' then ['\\', '"']
  else if c = '\\' then ['\\', '\\']
  else if c = '\n' then ['\\', 'n']
  else if c = '\t' then ['\\', 't']
  else if c = '\r' then ['\\', 'r']
  else [c]

def jsonEscape (s : String) : String :=
  String.mk (s.toList.flatMap jsonEscapeChar)

mutual
/-- Models Go `json.Marshal` over embedded values (strings quoted and
escaped, numbers in decimal, maps/arrays in list order, `time.Duration` as
its integer nanosecond count, `time.Time` as a quoted timestamp). -/
def jsonMarshal : GoValue → String
  | .vNil => "null"
  | .vStr s => "\"" ++ jsonEscape s ++ "\""
  | .vInt n => intToString n
  | .vInt32 n => intToString n
  | .vInt64 n => intToString n
  | .vFloat32 q => intToString (truncRat q)
  | .vFloat q => intToString (truncRat q)
  | .vBool b => if b then "true" else "false"
  | .vTime t => "\"" ++ intToString t ++ "\""
  | .vDur d => intToString d
  | .vMap kvs => "\x7b" ++ jsonMarshalMembers kvs ++ "\x7d"
  | .vArr vs => "[" ++ jsonMarshalElems vs ++ "]"

def jsonMarshalMembers : List (String × GoValue) → String
  | [] => ""
  | [(k, v)] => "\"" ++ jsonEscape k ++ "\":" ++ jsonMarshal v
  | (k, v) :: rest => "\"" ++ jsonEscape k ++ "\":" ++ jsonMarshal v ++ "," ++ jsonMarshalMembers rest

def jsonMarshalElems : List GoValue → String
  | [] => ""
  | [v] => jsonMarshal v
  | v :: rest => jsonMarshal v ++ "," ++ jsonMarshalElems rest
end

/-- Does the first list start with the second? -/
def listStartsWith : List Char → List Char → Bool
  | [], _ => true
  | _ :: _, [] => false
  | p :: ps, c :: cs => p = c && listStartsWith ps cs

/-- Models Go `strings.HasSuffix` / Lean `String.endsWith` by explicit list
recursion (so that it reduces on literals). -/
def strEndsWith (s suff : String) : Bool :=
  listStartsWith suff.toList.reverse s.toList.reverse

/-- Models Go `strings.TrimSuffix`'s character removal (`String.dropRight`)
by explicit list manipulation. -/
def strDropRight (s : String) (n : Nat) : String :=
  String.mk (s.toList.take (s.toList.length - n))

def charToLower (c : Char) : Char :=
  if 'A' ≤ c ∧ c ≤ 'Z' then Char.ofNat (c.toNat + 32) else c

/-- Models Go `strings.ToLower` / Lean `String.toLower` by explicit list
mapping. -/
def strToLower (s : String) : String := String.mk (s.toList.map charToLower)

/-- `convertFieldValue` from the API layer: coerces a raw value to the
canonical representation of a declared field type.  Translated branch by
branch from the Go source. -/
def convertFieldValue (value : GoValue) (fieldType : FieldType) : Except String GoValue :=
  if fieldType = fieldTypeString then
    match value with
    | .vStr v => .ok (.vStr v)
    | v => .ok (.vStr (goSprintf v))
  else if fieldType = fieldTypeInt then
    match value with
    | .vFloat v => .ok (.vInt64 (truncRat v))
    | .vInt v => .ok (.vInt64 v)
    | .vInt64 v => .ok (.vInt64 v)
    | .vStr v =>
      match goParseInt v with
      | some n => .ok (.vInt64 n)
      | none => .error ("strconv.ParseInt: parsing " ++ v ++ ": invalid syntax")
    | v => .error ("cannot convert " ++ goTypeName v ++ " to int")
  else if fieldType = fieldTypeFloat then
    match value with
    | .vFloat v => .ok (.vFloat v)
    | .vInt v => .ok (.vFloat (v : Rat))
    | .vInt64 v => .ok (.vFloat (v : Rat))
    | .vStr v =>
      match goParseFloat v with
      | some q => .ok (.vFloat q)
      | none => .error ("strconv.ParseFloat: parsing " ++ v ++ ": invalid syntax")
    | v => .error ("cannot convert " ++ goTypeName v ++ " to float")
  else if fieldType = fieldTypeBool then
    match value with
    | .vBool v => .ok (.vBool v)
    | .vStr v =>
      match goParseBool v with
      | some b => .ok (.vBool b)
      | none => .error ("strconv.ParseBool: parsing " ++ v ++ ": invalid syntax")
    | v => .error ("cannot convert " ++ goTypeName v ++ " to bool")
  else if fieldType = fieldTypeDateTime then
    match value with
    | .vStr v =>
      match goParseRFC3339 v with
      | some t => .ok (.vTime t)
      | none => .error ("parsing time " ++ v ++ " as RFC3339: cannot parse")
    | .vTime v => .ok (.vTime v)
    | v => .error ("cannot convert " ++ goTypeName v ++ " to datetime")
  else if fieldType = fieldTypeTime then
    match value with
    | .vStr v =>
      match goParseClock v with
      | some t => .ok (.vTime t)
      | none => .error ("parsing time " ++ v ++ ": cannot parse")
    | v => .error ("cannot convert " ++ goTypeName v ++ " to time")
  else if fieldType = fieldTypeDuration then
    match value with
    | .vStr v =>
      if strEndsWith v "ms" then
        match goParseInt (strDropRight v 2) with
        | some ms => .ok (.vDur (ms * nsPerMillisecond))
        | none => .error "invalid duration format"
      else if strEndsWith v "s" then
        match goParseInt (strDropRight v 1) with
        | some sec => .ok (.vDur (sec * nsPerSecond))
        | none => .error "invalid duration format"
      else if strEndsWith v "m" then
        match goParseInt (strDropRight v 1) with
        | some m => .ok (.vDur (m * nsPerMinute))
        | none => .error "invalid duration format"
      else if strEndsWith v "h" then
        match goParseInt (strDropRight v 1) with
        | some h => .ok (.vDur (h * nsPerHour))
        | none => .error "invalid duration format"
      else
        match goParseDuration v with
        | some d => .ok (.vDur d)
        | none => .error ("time: invalid duration " ++ v)
    | .vInt v => .ok (.vDur (v * nsPerSecond))
    | .vInt64 v => .ok (.vDur (v * nsPerSecond))
    | .vFloat v => .ok (.vDur (truncRat (v * (nsPerSecond : Rat))))
    | .vDur v => .ok (.vDur v)
    | v => .error ("cannot convert " ++ goTypeName v ++ " to duration")
  else if fieldType = fieldTypeJSON then
    .ok (.vStr (jsonMarshal value))
  else if fieldType = fieldTypeRest then
    .ok (.vStr (jsonMarshal value))
  else
    .error ("unsupported field type: " ++ fieldType)

/-- `models.Field`: a schema field definition.  The length/value-bound and
default attributes of the Go struct are not read by any operation modelled
here and are omitted. -/
inductive Field where
  | mk (name : String) (ty : FieldType) (required : Bool) (indexed : Bool)
       (description : String) (subFields : List Field) (itemType : FieldType)

def Field.name : Field → String
  | .mk n _ _ _ _ _ _ => n

def Field.ty : Field → FieldType
  | .mk _ t _ _ _ _ _ => t

def Field.required : Field → Bool
  | .mk _ _ r _ _ _ _ => r

def Field.indexed : Field → Bool
  | .mk _ _ _ i _ _ _ => i

def Field.description : Field → String
  | .mk _ _ _ _ d _ _ => d

def Field.subFields : Field → List Field
  | .mk _ _ _ _ _ fs _ => fs

def Field.itemType : Field → FieldType
  | .mk _ _ _ _ _ _ it => it

/-- `models.Schema`. -/
structure Schema where
  project : String
  table : String
  description : String
  version : String
  fields : List Field
  createdAt : GoTime
  updatedAt : GoTime

/-- `models.LogEntry`.  The tag map is not read by any modelled operation. -/
structure LogEntry where
  id : Int
  project : String
  table : String
  level : String
  message : String
  timestamp : GoTime
  ip : String
  fields : List (String × GoValue)

/-- Association-list lookup, modelling Go map indexing `m[k]`. -/
def lookupAssoc (l : List (String × GoValue)) (k : String) : Option GoValue :=
  match l.find? (fun kv => kv.1 = k) with
  | some kv => some kv.2
  | none => none

/-- Association-list update, modelling Go map assignment `m[k] = v`. -/
def updateAssoc (l : List (String × GoValue)) (k : String) (v : GoValue) :
    List (String × GoValue) :=
  if (l.find? (fun kv => kv.1 = k)).isSome then
    l.map (fun kv => if kv.1 = k then (k, v) else kv)
  else l ++ [(k, v)]

/-- The basic field types accepted by `Schema.Validate` / `validateField`. -/
def basicFieldTypes : List FieldType :=
  [fieldTypeString, fieldTypeInt, fieldTypeFloat, fieldTypeBool, fieldTypeDateTime,
   fieldTypeTime, fieldTypeDuration, fieldTypeJSON, fieldTypeRest]

/-- The array item types accepted by `validateField`'s array branch. -/
def validArrayItemTypes : List FieldType :=
  [fieldTypeString, fieldTypeInt, fieldTypeFloat, fieldTypeBool, fieldTypeDateTime,
   fieldTypeObject, fieldTypeJSON, fieldTypeRest]

mutual
/-- `validateField` of `models/schema.go`: checks one field against the set
of sibling names seen so far (the Go `fieldNames` map, modelled as a list);
on success returns the enlarged set. -/
def validateField : Field → List String → Except String (List String)
  | .mk name ty _ _ _ subs itemType, seen =>
    if name = "" then .error "field name is required"
    else if seen.contains name then .error ("duplicate field name: " ++ name)
    else
      let seenNext := name :: seen
      if basicFieldTypes.contains ty then .ok seenNext
      else if ty = fieldTypeObject then
        if subs.isEmpty then
          .error ("object field " ++ name ++ " must have sub-fields")
        else
          match validateFieldList subs [] with
          | .error e => .error ("in field " ++ name ++ ": " ++ e)
          | .ok _ => .ok seenNext
      else if ty = fieldTypeArray then
        if itemType = "" then
          .error ("array field " ++ name ++ " must specify item_type")
        else if validArrayItemTypes.contains itemType then .ok seenNext
        else .error ("invalid array item type for field " ++ name ++ ": " ++ itemType)
      else .error ("invalid field type for field " ++ name ++ ": " ++ ty)

/-- Sequential validation of a field list with a shared name set, as the
loop in `Schema.Validate` (and the sub-field loop of `validateField`) does. -/
def validateFieldList (fs : List Field) (seen : List String) : Except String (List String) :=
  match fs with
  | [] => .ok seen
  | f :: rest =>
    match validateField f seen with
    | .error e => .error e
    | .ok seenNext => validateFieldList rest seenNext
end

/-- `Schema.Validate` of `models/schema.go`. -/
def Schema.validate (s : Schema) : Except String Unit :=
  if s.project = "" then .error "project name is required"
  else if s.table = "" then .error "table name is required"
  else if s.fields.isEmpty then .error "at least one field is required"
  else
    match validateFieldList s.fields [] with
    | .error e => .error e
    | .ok _ => .ok ()

/-- `Schema.validateFieldValue` of `models/schema.go`: shape check of one
field value against a declared type; `nil` is always accepted. -/
def validateFieldValue (fieldType : FieldType) (value : GoValue) : Except String Unit :=
  match value with
  | .vNil => .ok ()
  | _ =>
    if fieldType = fieldTypeString then
      match value with
      | .vStr _ => .ok ()
      | _ => .error "期望 string 类型"
    else if fieldType = fieldTypeInt then
      match value with
      | .vInt _ => .ok ()
      | .vInt32 _ => .ok ()
      | .vInt64 _ => .ok ()
      | .vFloat _ => .ok ()
      | v => .error ("期望 int 类型，实际为 " ++ goTypeName v)
    else if fieldType = fieldTypeFloat then
      match value with
      | .vFloat32 _ => .ok ()
      | .vFloat _ => .ok ()
      | v => .error ("期望 float 类型，实际为 " ++ goTypeName v)
    else if fieldType = fieldTypeBool then
      match value with
      | .vBool _ => .ok ()
      | _ => .error "期望 bool 类型"
    else if fieldType = fieldTypeDateTime then
      match value with
      | .vStr v =>
        match goParseRFC3339 v with
        | some _ => .ok ()
        | none => .error "无效的日期时间格式，期望 RFC3339 格式"
      | .vTime _ => .ok ()
      | _ => .error "期望 datetime 类型"
    else if fieldType = fieldTypeTime then
      match value with
      | .vStr v =>
        match goParseClock v with
        | some _ => .ok ()
        | none => .error "无效的时间格式，期望 HH:MM:SS 格式"
      | _ => .error "期望 time 类型"
    else if fieldType = fieldTypeDuration then
      match value with
      | .vStr v =>
        match goParseDuration v with
        | some _ => .ok ()
        | none => .error "无效的持续时间格式"
      | .vInt _ => .ok ()
      | .vInt64 _ => .ok ()
      | .vFloat _ => .ok ()
      | .vDur _ => .ok ()
      | _ => .error "期望 duration 类型"
    else if fieldType = fieldTypeJSON ∨ fieldType = fieldTypeRest then .ok ()
    else .error ("未知的字段类型: " ++ fieldType)

/-- First field of rest ("catch-all") type, as located by the loops in
`ValidateLogEntry` and the storage drivers. -/
def findRestField (fs : List Field) : Option Field :=
  fs.find? (fun f => f.ty = fieldTypeRest)

/-- The per-field loop of `Schema.ValidateLogEntry`: skips rest-typed fields
and the fields named level/message/timestamp (case-insensitively), demands
required fields to be present (looked up under the lowercased name) and
shape-checks present values. -/
def checkEntryFields (entryFields : List (String × GoValue)) : List Field → Except String Unit
  | [] => .ok ()
  | f :: rest =>
    if f.ty = fieldTypeRest then checkEntryFields entryFields rest
    else if strToLower f.name = "level" ∨ strToLower f.name = "message" ∨ strToLower f.name = "timestamp" then
      checkEntryFields entryFields rest
    else
      match lookupAssoc entryFields (strToLower f.name) with
      | none =>
        if f.required then .error ("缺少必填字段: " ++ f.name)
        else checkEntryFields entryFields rest
      | some v =>
        match validateFieldValue f.ty v with
        | .error e => .error ("字段 " ++ f.name ++ " 类型错误: " ++ e)
        | .ok _ => checkEntryFields entryFields rest

/-- `Schema.ValidateLogEntry` of `models/schema.go`.  In Go the entry is
mutated in place (undeclared fields are merged into the rest field);
here the updated entry is returned on success. -/
def validateLogEntry (s : Schema) (entry : LogEntry) : Except String LogEntry :=
  if entry.project ≠ s.project ∨ entry.table ≠ s.table then
    .error "project 或 table 不匹配"
  else if entry.level = "" then .error "level 字段不能为空"
  else if entry.message = "" then .error "message 字段不能为空"
  else if entry.timestamp = 0 then .error "timestamp 字段不能为空"
  else
    match checkEntryFields entry.fields s.fields with
    | .error e => .error e
    | .ok _ =>
      match findRestField s.fields with
      | none => .ok entry
      | some restField =>
        let restFields := entry.fields.filter
          (fun kv => ¬ s.fields.any (fun f => f.name = kv.1))
        if restFields.isEmpty then .ok entry
        else .ok { entry with fields := updateAssoc entry.fields restField.name (.vMap restFields) }


/-! ## YAML document round trip

The declarative document format is modelled at the level of the decoded
structures `YAMLSchema` / `YAMLField` of `models/schema.go`; the byte-level
YAML codec is the external `gopkg.in/yaml.v3` library. -/

/-- `models.YAMLField`. -/
structure YAMLField where
  name : String
  ty : String
  description : String
  required : Bool
  indexed : Bool

/-- `models.YAMLSchema`. -/
structure YAMLSchema where
  project : String
  table : String
  description : String
  fields : List YAMLField

/-- The field types accepted by `SchemaFromYAML`. -/
def yamlFieldTypes : List String :=
  [fieldTypeString, fieldTypeInt, fieldTypeFloat, fieldTypeBool,
   fieldTypeDateTime, fieldTypeJSON, fieldTypeTime, fieldTypeDuration]

/-- The field-conversion loop of `SchemaFromYAML`. -/
def fieldsFromYAML : List YAMLField → Except String (List Field)
  | [] => .ok []
  | yf :: rest =>
    if yamlFieldTypes.contains yf.ty then
      match fieldsFromYAML rest with
      | .error e => .error e
      | .ok fs => .ok (.mk yf.name yf.ty yf.required yf.indexed yf.description [] "" :: fs)
    else .error ("invalid field type for field " ++ yf.name ++ ": " ++ yf.ty)

/-- `models.SchemaFromYAML`, taking the decoded document and the current
time (Go's `time.Now()` for the fresh timestamps). -/
def schemaFromYAML (doc : YAMLSchema) (now : GoTime) : Except String Schema :=
  match fieldsFromYAML doc.fields with
  | .error e => .error e
  | .ok fs =>
    .ok { project := doc.project, table := doc.table, description := doc.description,
          version := "", fields := fs, createdAt := now, updatedAt := now }

/-- `Schema.ToYAML`, producing the document structure that is then handed to
the YAML encoder. -/
def schemaToYAML (s : Schema) : YAMLSchema :=
  { project := s.project, table := s.table, description := s.description,
    fields := s.fields.map (fun f => ⟨f.name, f.ty, f.description, f.required, f.indexed⟩) }

/-! ## Database state and the storage drivers' insert paths

The database visible to one driver is modelled as the schema-metadata table
plus the per-table row lists.  A batch operation returns an optional error
message together with the final state; the transaction used by every batch
insert is modelled by a row buffer that reaches the state only on commit. -/

/-- One inserted row: column name / value pairs in insertion order. -/
abbrev Row := List (String × GoValue)

/-- The persistent state of one storage backend. -/
structure DBState where
  schemaMeta : List ((String × String) × Schema)
  tables : List (String × List Row)

/-- Lookup of the metadata row keyed by (project, table_name). -/
def lookupMeta (st : DBState) (p t : String) : Option Schema :=
  match st.schemaMeta.find? (fun kv => kv.1.1 = p ∧ kv.1.2 = t) with
  | some kv => some kv.2
  | none => none

/-- `GetSchema` of the Postgres/MySQL/ClickHouse drivers: all three
reconstruct the schema from the stored metadata row, overriding project and
table with the queried key. -/
def getSchemaDB (st : DBState) (p t : String) : Option Schema :=
  match lookupMeta st p t with
  | some s => some { s with project := p, table := t }
  | none => none

/-- Append committed rows to a table (creating its entry if absent). -/
def addRows : List (String × List Row) → String → List Row → List (String × List Row)
  | [], tn, rows => [(tn, rows)]
  | (n, rs) :: rest, tn, rows =>
    if n = tn then (n, rs ++ rows) :: rest else (n, rs) :: addRows rest tn rows

/-- Transaction commit: the buffered rows reach the state. -/
def commitRows (st : DBState) (tn : String) (rows : List Row) : DBState :=
  { st with tables := addRows st.tables tn rows }

/-- The per-record loop shared (textually) by all three drivers' batch
inserts: validate, then buffer the row built from the validated (and
possibly rest-merged) record; the first validation failure aborts with the
wrapped error and the transaction is rolled back by the caller. -/
def batchInsertLoop (validate : LogEntry → Except String LogEntry) (mkRow : LogEntry → Row) :
    List LogEntry → List Row → Option String × List Row
  | [], buf => (none, buf)
  | log :: rest, buf =>
    match validate log with
    | .error e => (some ("日志数据验证失败: " ++ e), buf)
    | .ok logV => batchInsertLoop validate mkRow rest (buf ++ [mkRow logV])

/-- Models Go `strconv.Quote` as used for the Postgres schema name. -/
def goQuote (s : String) : String := "\"" ++ jsonEscape s ++ "\""

/-- Table name built by `PostgresStorage.createLogTable` (part_007:207). -/
def pgCreateLogTableName (pgSchema p t : String) : String :=
  goQuote pgSchema ++ "." ++ p ++ "_" ++ t

/-- Table name built by `PostgresStorage.BatchInsertLogs` (part_007:383). -/
def pgInsertTableName (pgSchema p t : String) : String :=
  goQuote pgSchema ++ "." ++ p ++ "_" ++ t

/-- Table name built by `PostgresStorage.DeleteSchema` (part_007:538). -/
def pgDeleteTableName (pgSchema p t : String) : String :=
  goQuote pgSchema ++ "." ++ p ++ "_" ++ t

/-- Table name built by `MySQLStorage.createLogTable` (mysql.go:157). -/
def mysqlCreateLogTableName (p t : String) : String := "logs_" ++ p ++ "_" ++ t

/-- Table name built by `MySQLStorage.BatchInsertLogs` (mysql.go:311). -/
def mysqlInsertTableName (p t : String) : String := "logs_" ++ p ++ "_" ++ t

/-- Table name built by `MySQLStorage.DeleteSchema` (mysql.go:409). -/
def mysqlDeleteTableName (p t : String) : String := "logs_" ++ p ++ "_" ++ t

/-- Table name built by `ClickHouseStorage.createLogTable` (part_006:166). -/
def chCreateLogTableName (p t : String) : String := "logs_" ++ p ++ "_" ++ t

/-- Table name built by `ClickHouseStorage.BatchInsertLogs` (part_006:350). -/
def chInsertTableName (p t : String) : String := "logs_" ++ p ++ "_" ++ t

/-- Table name built by `ClickHouseStorage.DeleteSchema` (part_006:527). -/
def chDeleteTableName (p t : String) : String := "logs_" ++ p ++ "_" ++ t

/-- Column list prepared by `PostgresStorage.BatchInsertLogs`: the base
columns, the default columns not shadowed by schema fields, the declared
non-rest fields, then the rest field if declared. -/
def pgBatchColumns (fields : List Field) (restF : Option Field) : List String :=
  ["project", "table_name", "timestamp"]
  ++ (["level", "message", "ip"].filter (fun n => ¬ fields.any (fun f => f.name = n)))
  ++ (fields.filter (fun f => ¬ f.ty = fieldTypeRest)).map Field.name
  ++ (match restF with | some rf => [rf.name] | none => [])

/-- Value of a custom (non-switch-case) column in the Postgres insert:
map values are JSON-encoded, absent fields become NULL. -/
def pgCustomValue (entry : LogEntry) (col : String) : GoValue :=
  match lookupAssoc entry.fields col with
  | some (.vMap m) => .vStr (jsonMarshal (.vMap m))
  | some v => v
  | none => .vNil

/-- The per-column switch of `PostgresStorage.BatchInsertLogs`. -/
def pgColumnValue (restF : Option Field) (entry : LogEntry) (col : String) : GoValue :=
  if col = "project" then .vStr entry.project
  else if col = "table_name" then .vStr entry.table
  else if col = "timestamp" then .vTime entry.timestamp
  else if col = "level" then .vStr entry.level
  else if col = "message" then .vStr entry.message
  else if col = "ip" then .vStr entry.ip
  else
    match restF with
    | some rf =>
      if col = rf.name then
        match lookupAssoc entry.fields rf.name with
        | some rv => .vStr (jsonMarshal rv)
        | none => .vStr "\x7b\x7d"
      else pgCustomValue entry col
    | none => pgCustomValue entry col

def mkPgRow (cols : List String) (restF : Option Field) (entry : LogEntry) : Row :=
  cols.map (fun c => (c, pgColumnValue restF entry c))

/-- `PostgresStorage.BatchInsertLogs`: fetch the schema, validate and insert
every record inside one transaction, commit only if all succeed. -/
def pgBatchInsertLogs (st : DBState) (pgSchema p t : String) (logs : List LogEntry) :
    Option String × DBState :=
  if logs.isEmpty then (none, st)
  else
    match getSchemaDB st p t with
    | none => (some "获取 schema 失败: schema not found", st)
    | some schema =>
      let restF := findRestField schema.fields
      let cols := pgBatchColumns schema.fields restF
      let tn := pgInsertTableName pgSchema p t
      match batchInsertLoop (validateLogEntry schema) (mkPgRow cols restF) logs [] with
      | (some e, _) => (some e, st)
      | (none, buf) => (none, commitRows st tn buf)

/-- `PostgresStorage.InsertLog` (part_007:296): delegates to the batch
insert with a singleton slice. -/
def pgInsertLog (st : DBState) (pgSchema p t : String) (log : LogEntry) :
    Option String × DBState :=
  pgBatchInsertLogs st pgSchema p t [log]

/-- Row built by `MySQLStorage.BatchInsertLogs`: the SQL names every schema
field as a column but binds values only for the fields present in the
record (the resulting arity mismatch for absent fields is a latent bug of
the source, preserved here as the row containing only the present pairs). -/
def mkMySQLRow (fields : List Field) (entry : LogEntry) : Row :=
  (fields.map Field.name).filterMap
    (fun c => match lookupAssoc entry.fields c with
              | some v => some (c, v)
              | none => none)

/-- `MySQLStorage.BatchInsertLogs`. -/
def mysqlBatchInsertLogs (st : DBState) (p t : String) (logs : List LogEntry) :
    Option String × DBState :=
  if logs.isEmpty then (none, st)
  else
    match getSchemaDB st p t with
    | none => (some "获取 schema 失败: schema not found", st)
    | some schema =>
      let tn := mysqlInsertTableName p t
      match batchInsertLoop (validateLogEntry schema) (mkMySQLRow schema.fields) logs [] with
      | (some e, _) => (some e, st)
      | (none, buf) => (none, commitRows st tn buf)

/-- `MySQLStorage.InsertLog` (mysql.go:423). -/
def mysqlInsertLog (st : DBState) (p t : String) (log : LogEntry) :
    Option String × DBState :=
  mysqlBatchInsertLogs st p t [log]

/-- Row built by `ClickHouseStorage.BatchInsertLogs` (same shape as the
MySQL one). -/
def mkChRow (fields : List Field) (entry : LogEntry) : Row :=
  (fields.map Field.name).filterMap
    (fun c => match lookupAssoc entry.fields c with
              | some v => some (c, v)
              | none => none)

/-- `ClickHouseStorage.BatchInsertLogs`. -/
def chBatchInsertLogs (st : DBState) (p t : String) (logs : List LogEntry) :
    Option String × DBState :=
  if logs.isEmpty then (none, st)
  else
    match getSchemaDB st p t with
    | none => (some "获取 schema 失败: schema not found", st)
    | some schema =>
      let tn := chInsertTableName p t
      match batchInsertLoop (validateLogEntry schema) (mkChRow schema.fields) logs [] with
      | (some e, _) => (some e, st)
      | (none, buf) => (none, commitRows st tn buf)

/-- `ClickHouseStorage.InsertLog` (part_006:541). -/
def chInsertLog (st : DBState) (p t : String) (log : LogEntry) :
    Option String × DBState :=
  chBatchInsertLogs st p t [log]

/-! ## SQLite driver, modelled from the spec

The repository's SQLite driver source file is not under `src/` (only its
constructor call and config appear there), so its insert path is modelled
from the specification. -/

/-- Modelled from the spec: the SQLite driver's physical log table name,
`"<project>_<table>"` (spec section 4.3, "Table materialization"); the
driver's source file is missing from the provided tree. -/
def sqliteTableName (p t : String) : String := p ++ "_" ++ t

/-- Modelled from the spec: the fixed column union of an inserted record —
implicit always-present columns, declared non-catch-all fields for which a
value exists, and the catch-all field serialized to JSON if declared (spec
section 4.3, "Insert / batch insert"). -/
def mkSqliteRow (fields : List Field) (restF : Option Field) (entry : LogEntry) : Row :=
  [("project", GoValue.vStr entry.project), ("table", GoValue.vStr entry.table),
   ("level", GoValue.vStr entry.level), ("message", GoValue.vStr entry.message),
   ("timestamp", GoValue.vTime entry.timestamp), ("ip", GoValue.vStr entry.ip)]
  ++ (fields.filter (fun f => ¬ f.ty = fieldTypeRest)).filterMap
      (fun f => match lookupAssoc entry.fields f.name with
                | some v => some (f.name, v)
                | none => none)
  ++ (match restF with
      | some rf =>
        [(rf.name, GoValue.vStr (match lookupAssoc entry.fields rf.name with
                                 | some rv => jsonMarshal rv
                                 | none => "\x7b\x7d"))]
      | none => [])

/-- Modelled from the spec: the SQLite driver's batch insert — validate each
record against the freshly fetched schema, all-or-nothing in one
transaction, surfacing the first validation error (spec section 4.3). -/
def sqliteBatchInsertLogs (st : DBState) (p t : String) (logs : List LogEntry) :
    Option String × DBState :=
  if logs.isEmpty then (none, st)
  else
    match getSchemaDB st p t with
    | none => (some "获取 schema 失败: schema not found", st)
    | some schema =>
      let restF := findRestField schema.fields
      let tn := sqliteTableName p t
      match batchInsertLoop (validateLogEntry schema) (mkSqliteRow schema.fields restF) logs [] with
      | (some e, _) => (some e, st)
      | (none, buf) => (none, commitRows st tn buf)

/-- Modelled from the spec: the SQLite driver's single insert — validate the
record against the freshly fetched schema and insert its row (spec sections
4.3 and 6). -/
def sqliteInsertLog (st : DBState) (p t : String) (log : LogEntry) :
    Option String × DBState :=
  match getSchemaDB st p t with
  | none => (some "获取 schema 失败: schema not found", st)
  | some schema =>
    let restF := findRestField schema.fields
    let tn := sqliteTableName p t
    match validateLogEntry schema log with
    | .error e => (some ("日志数据验证失败: " ++ e), st)
    | .ok logV => (none, commitRows st tn [mkSqliteRow schema.fields restF logV])

/-! ## Schema manager -/

/-- The manager's mutable state: the in-memory cache (keyed by the Go string
`project:table`, in map-iteration order modelled as list order) together
with the backend state it would touch on loads — the removal path must
leave the latter unchanged. -/
structure ManagerState where
  schemasDir : String
  schemas : List (String × Schema)
  backend : DBState

/-- Models `filepath.Join` for a clean directory and a bare file name. -/
def joinPath (dir name : String) : String := dir ++ "/" ++ name

/-- Models the watcher's `filepath.Ext(name) == ".yaml"` check. -/
def hasYamlExt (s : String) : Bool := s.toList.reverse.take 5 = ['l', 'm', 'a', 'y', '.']

/-- The file name the watcher's remove branch reconstructs for a cached
schema: `project + "_" + table + ".yaml"`. -/
def schemaFileName (s : Schema) : String := s.project ++ "_" ++ s.table ++ ".yaml"

/-- The remove branch of `Manager.watchChanges`: delete the first cache
entry whose reconstructed file path equals the event path, then stop. -/
def evictFirstMatch (dir evName : String) :
    List (String × Schema) → List (String × Schema)
  | [] => []
  | (k, s) :: rest =>
    if joinPath dir (schemaFileName s) = evName then rest
    else (k, s) :: evictFirstMatch dir evName rest

/-- Processing of one `fsnotify.Remove` event by `Manager.watchChanges`:
non-`.yaml` paths are ignored; otherwise the first matching cache entry is
evicted.  No storage call is made on this path. -/
def processRemoveEvent (m : ManagerState) (evName : String) : ManagerState :=
  if hasYamlExt evName then
    { m with schemas := evictFirstMatch m.schemasDir evName m.schemas }
  else m

/-- `Manager.GetSchema`: cache lookup under the `project:table` key. -/
def managerGetSchema (m : ManagerState) (p t : String) : Except String Schema :=
  match m.schemas.find? (fun kv => kv.1 = p ++ ":" ++ t) with
  | some kv => .ok kv.2
  | none => .error ("schema not found: " ++ p ++ ":" ++ t)


/-! ## Specification-side predicates (for comparison against the code) -/

/-- No duplicates in a name list (spec: "every field name is unique"). -/
def nodupNames : List String → Bool
  | [] => true
  | n :: rest => ¬ rest.contains n && nodupNames rest

mutual
/-- Claim C2's validity predicate, exactly as the claim states it: the field
type is declared, object fields have at least one (recursively valid)
sub-field with unique names, array fields declare a valid item type.  It
does not demand non-empty field names or a non-empty field list. -/
def claimFieldOK : Field → Bool
  | .mk _ ty _ _ _ subs itemType =>
    if basicFieldTypes.contains ty then true
    else if ty = fieldTypeObject then
      ¬ subs.isEmpty && nodupNames (subs.map Field.name) && claimFieldListOK subs
    else if ty = fieldTypeArray then validArrayItemTypes.contains itemType
    else false

def claimFieldListOK : List Field → Bool
  | [] => true
  | f :: rest => claimFieldOK f && claimFieldListOK rest
end

/-- Claim C2's schema-validity predicate as stated: unique field names,
structural rules, declared types, non-empty project/table. -/
def claimC2Pred (s : Schema) : Bool :=
  ¬ (s.project = "") && ¬ (s.table = "") &&
  nodupNames (s.fields.map Field.name) && claimFieldListOK s.fields

mutual
/-- Spec-side field well-formedness, amended with the non-empty-name
requirement the code enforces. -/
def wfField : Field → Bool
  | .mk name ty _ _ _ subs itemType =>
    ¬ (name = "") &&
    (if basicFieldTypes.contains ty then true
     else if ty = fieldTypeObject then
       ¬ subs.isEmpty && nodupNames (subs.map Field.name) && wfFieldList subs
     else if ty = fieldTypeArray then validArrayItemTypes.contains itemType
     else false)

def wfFieldList : List Field → Bool
  | [] => true
  | f :: rest => wfField f && wfFieldList rest
end

/-- Spec-side schema well-formedness, amended with the non-empty field list
and non-empty field names the code enforces. -/
def schemaWellFormed (s : Schema) : Bool :=
  ¬ (s.project = "") && ¬ (s.table = "") && ¬ s.fields.isEmpty &&
  nodupNames (s.fields.map Field.name) && wfFieldList s.fields

/-- Name freshness exactly as the sequential `validateField` loop sees it:
each field name is non-empty and differs from all names seen before it. -/
def namesFresh : List Field → List String → Bool
  | [], _ => true
  | f :: rest, seen =>
    !(f.name == "") && !(seen.contains f.name) && namesFresh rest (f.name :: seen)

/-- The single-field acceptance condition of the `ValidateLogEntry` field
loop: the field is rest-typed, or one of the skipped implicit names, or
present with a shape-valid value, or absent and optional. -/
def fieldPasses (entryFields : List (String × GoValue)) (f : Field) : Bool :=
  decide (f.ty = fieldTypeRest) ||
  decide (strToLower f.name = "level") || decide (strToLower f.name = "message") ||
  decide (strToLower f.name = "timestamp") ||
  (match lookupAssoc entryFields (strToLower f.name) with
   | none => ! f.required
   | some v => (validateFieldValue f.ty v).isOk)

/-- The base-field checks of `ValidateLogEntry` (key match, level, message,
timestamp) all pass. -/
def baseChecksPass (s : Schema) (entry : LogEntry) : Prop :=
  entry.project = s.project ∧ entry.table = s.table ∧
  entry.level ≠ "" ∧ entry.message ≠ "" ∧ entry.timestamp ≠ 0

/-! ## Concrete fixtures used by witnesses and counterexamples -/

/-- A required string field, for witness scenarios. -/
def wField : Field := .mk "user_id" fieldTypeString true false "" [] ""

/-- A stored schema with the single required field `user_id`. -/
def wSchema : Schema :=
  { project := "p", table := "t", description := "", version := "",
    fields := [wField], createdAt := 0, updatedAt := 0 }

/-- A backend state holding `wSchema` and no rows. -/
def wState : DBState := { schemaMeta := [(("p", "t"), wSchema)], tables := [] }

/-- A record missing the required `user_id` field. -/
def wBad : LogEntry :=
  { id := 0, project := "p", table := "t", level := "info", message := "msg",
    timestamp := 1, ip := "", fields := [] }

/-- A record carrying the required `user_id` field. -/
def wGood : LogEntry :=
  { id := 0, project := "p", table := "t", level := "info", message := "msg",
    timestamp := 1, ip := "", fields := [("user_id", .vStr "u1")] }

/-- A schema whose derived file name collides with `wSchemaB`'s. -/
def wSchemaA : Schema :=
  { project := "a", table := "b_c", description := "", version := "",
    fields := [], createdAt := 0, updatedAt := 0 }

/-- A schema whose derived file name collides with `wSchemaA`'s. -/
def wSchemaB : Schema :=
  { project := "a_b", table := "c", description := "", version := "",
    fields := [], createdAt := 0, updatedAt := 0 }

/-- A manager state caching two schemas whose schema-definition files both
reverse-map to `dir/a_b_c.yaml`. -/
def wManager : ManagerState :=
  { schemasDir := "dir",
    schemas := [("a:b_c", wSchemaA), ("a_b:c", wSchemaB)],
    backend := { schemaMeta := [], tables := [] } }

/-- A schema with no fields at all (valid under claim C2's conditions,
rejected by the code). -/
def wEmptySchema : Schema :=
  { project := "p", table := "t", description := "", version := "",
    fields := [], createdAt := 0, updatedAt := 0 }

/-- A schema declaring a required field named `ip`. -/
def wIpSchema : Schema :=
  { project := "p", table := "t", description := "", version := "",
    fields := [.mk "ip" fieldTypeString true false "" [] ""], createdAt := 0, updatedAt := 0 }


/-- A YAML document with one required int field. -/
def wDoc : YAMLSchema :=
  { project := "p", table := "t", description := "d",
    fields := [{ name := "f1", ty := fieldTypeInt, description := "", required := true, indexed := false }] }

/-- The schema `wDoc` parses to (at time 0). -/
def wDocSchema : Schema :=
  { project := "p", table := "t", description := "d", version := "",
    fields := [.mk "f1" fieldTypeInt true false "" [] ""], createdAt := 0, updatedAt := 0 }

attribute [simp] fieldTypeString fieldTypeInt fieldTypeFloat fieldTypeBool fieldTypeDateTime
  fieldTypeTime fieldTypeDuration fieldTypeJSON fieldTypeRest fieldTypeObject fieldTypeArray

/-! ## Theorems -/

/-- C3 (counterexample): the MySQL driver does not derive the physical log
table name as `project + "_" + table`: at project `a`, table `b` it builds
`logs_a_b`, not `a_b`. -/
theorem mysql_tableName_not_project_table :
    ¬ mysqlCreateLogTableName "a" "b" = "a" ++ "_" ++ "b" := by decide

/-- C3 (amended): within each backend driver, table creation, batch
insertion and schema deletion all derive the same physical log table name;
that name is `"logs_" ++ project ++ "_" ++ table` for the MySQL and
ClickHouse drivers, the quoted-schema-qualified `project ++ "_" ++ table`
for the Postgres driver, and (modelled from the spec) the bare
`project ++ "_" ++ table` for the SQLite driver. -/
theorem tableName_consistent_per_driver (p t qs : String) :
    mysqlCreateLogTableName p t = mysqlInsertTableName p t ∧
    mysqlInsertTableName p t = mysqlDeleteTableName p t ∧
    mysqlCreateLogTableName p t = "logs_" ++ p ++ "_" ++ t ∧
    chCreateLogTableName p t = chInsertTableName p t ∧
    chInsertTableName p t = chDeleteTableName p t ∧
    chCreateLogTableName p t = "logs_" ++ p ++ "_" ++ t ∧
    pgCreateLogTableName qs p t = pgInsertTableName qs p t ∧
    pgInsertTableName qs p t = pgDeleteTableName qs p t ∧
    pgCreateLogTableName qs p t = goQuote qs ++ "." ++ p ++ "_" ++ t ∧
    sqliteTableName p t = p ++ "_" ++ t :=
  ⟨rfl, rfl, rfl, rfl, rfl, rfl, rfl, rfl, rfl, rfl⟩

/-- C9: for each backend driver, inserting a single record is the batch
insert of the singleton list — same result, same effect on the stored
state.  For the Postgres, MySQL and ClickHouse drivers this is how
`InsertLog` is defined in the source; for the spec-modelled SQLite driver
the two operations coincide extensionally. -/
theorem insertLog_is_singleton_batch (st : DBState) (qs p t : String) (log : LogEntry) :
    pgInsertLog st qs p t log = pgBatchInsertLogs st qs p t [log] ∧
    mysqlInsertLog st p t log = mysqlBatchInsertLogs st p t [log] ∧
    chInsertLog st p t log = chBatchInsertLogs st p t [log] ∧
    sqliteInsertLog st p t log = sqliteBatchInsertLogs st p t [log] := by
  refine ⟨rfl, rfl, rfl, ?_⟩
  unfold sqliteInsertLog sqliteBatchInsertLogs
  cases hg : getSchemaDB st p t with
  | none => simp
  | some schema =>
    cases hv : validateLogEntry schema log with
    | error e => simp [batchInsertLoop, hv]
    | ok logV => simp [batchInsertLoop, hv]

/-- C10: record validation rejects entries with an empty level, an empty
message or a zero timestamp, and entries whose project or table differ from
the schema's, in that priority order and before any schema-field check
(independently of the schema's fields). -/
theorem validateLogEntry_base_rejections (s : Schema) (e : LogEntry) :
    (e.project ≠ s.project ∨ e.table ≠ s.table →
      validateLogEntry s e = .error "project 或 table 不匹配") ∧
    (e.project = s.project → e.table = s.table → e.level = "" →
      validateLogEntry s e = .error "level 字段不能为空") ∧
    (e.project = s.project → e.table = s.table → e.level ≠ "" → e.message = "" →
      validateLogEntry s e = .error "message 字段不能为空") ∧
    (e.project = s.project → e.table = s.table → e.level ≠ "" → e.message ≠ "" →
      e.timestamp = 0 → validateLogEntry s e = .error "timestamp 字段不能为空") := by
  unfold validateLogEntry
  refine ⟨?_, ?_, ?_, ?_⟩ <;> intros <;> simp_all

/-- C10 witness: a record with an empty level against the `user_id` schema
is rejected with the level error. -/
theorem validateLogEntry_base_rejections_w :
    validateLogEntry wSchema { wBad with level := "" } = .error "level 字段不能为空" :=
  (validateLogEntry_base_rejections wSchema _).2.1 rfl rfl rfl

/-- C6: duration coercion — a numeric raw value is taken as a count of
seconds, an already-typed duration passes through unchanged, and a string
is matched against the explicit suffix rules `ms`, `s`, `m`, `h` (in that
order, yielding milliseconds, seconds, minutes, hours); a string matching
none of those suffixes is handed to the general duration-string parser. -/
theorem duration_coercion_rules (n : Int) (q : Rat) (d : GoDuration) (v : String) (k : Int)
    (dd : GoDuration) :
    (convertFieldValue (.vInt n) fieldTypeDuration = .ok (.vDur (n * nsPerSecond))) ∧
    (convertFieldValue (.vInt64 n) fieldTypeDuration = .ok (.vDur (n * nsPerSecond))) ∧
    (convertFieldValue (.vFloat q) fieldTypeDuration
      = .ok (.vDur (truncRat (q * (nsPerSecond : Rat))))) ∧
    (convertFieldValue (.vDur d) fieldTypeDuration = .ok (.vDur d)) ∧
    (strEndsWith v "ms" = true → goParseInt (strDropRight v 2) = some k →
      convertFieldValue (.vStr v) fieldTypeDuration = .ok (.vDur (k * nsPerMillisecond))) ∧
    (strEndsWith v "ms" = false → strEndsWith v "s" = true → goParseInt (strDropRight v 1) = some k →
      convertFieldValue (.vStr v) fieldTypeDuration = .ok (.vDur (k * nsPerSecond))) ∧
    (strEndsWith v "ms" = false → strEndsWith v "s" = false → strEndsWith v "m" = true →
      goParseInt (strDropRight v 1) = some k →
      convertFieldValue (.vStr v) fieldTypeDuration = .ok (.vDur (k * nsPerMinute))) ∧
    (strEndsWith v "ms" = false → strEndsWith v "s" = false → strEndsWith v "m" = false →
      strEndsWith v "h" = true → goParseInt (strDropRight v 1) = some k →
      convertFieldValue (.vStr v) fieldTypeDuration = .ok (.vDur (k * nsPerHour))) ∧
    (strEndsWith v "ms" = false → strEndsWith v "s" = false → strEndsWith v "m" = false →
      strEndsWith v "h" = false → goParseDuration v = some dd →
      convertFieldValue (.vStr v) fieldTypeDuration = .ok (.vDur dd)) ∧
    (strEndsWith v "ms" = false → strEndsWith v "s" = false → strEndsWith v "m" = false →
      strEndsWith v "h" = false → goParseDuration v = none →
      convertFieldValue (.vStr v) fieldTypeDuration
        = .error ("time: invalid duration " ++ v)) := by
  refine ⟨rfl, rfl, rfl, rfl, ?_, ?_, ?_, ?_, ?_, ?_⟩ <;>
    intros <;> simp_all [convertFieldValue, fieldTypeDuration, fieldTypeString, fieldTypeInt,
      fieldTypeFloat, fieldTypeBool, fieldTypeDateTime, fieldTypeTime]

/-- C6 witness: `500ms` coerces to 500,000,000 ns, the numeric 5 to five
seconds, `2h` to two hours, and `abc` (no suffix match) is rejected by the
general parser. -/
theorem duration_coercion_rules_w :
    convertFieldValue (.vStr "500ms") fieldTypeDuration = .ok (.vDur 500000000) ∧
    convertFieldValue (.vInt 5) fieldTypeDuration = .ok (.vDur 5000000000) ∧
    convertFieldValue (.vStr "2h") fieldTypeDuration = .ok (.vDur 7200000000000) ∧
    convertFieldValue (.vStr "abc") fieldTypeDuration
      = .error ("time: invalid duration " ++ "abc") := by
  have hms := (duration_coercion_rules 5 0 0 "500ms" 500 0).2.2.2.2.1 (by decide) (by decide)
  have hn := (duration_coercion_rules 5 0 0 "" 0 0).1
  have hh := (duration_coercion_rules 5 0 0 "2h" 2 0).2.2.2.2.2.2.2.1
    (by decide) (by decide) (by decide) (by decide) (by decide)
  have habc := (duration_coercion_rules 5 0 0 "abc" 0 0).2.2.2.2.2.2.2.2.2
    (by decide) (by decide) (by decide) (by decide) (by decide)
  refine ⟨?_, ?_, ?_, habc⟩
  · simpa [nsPerMillisecond] using hms
  · simpa [nsPerSecond] using hn
  · simpa [nsPerHour, nsPerMinute, nsPerSecond] using hh

/-- Helper: a successfully converted field list maps back to the original
document fields. -/
theorem fieldsFromYAML_roundtrip :
    ∀ (yfs : List YAMLField) (fs : List Field), fieldsFromYAML yfs = .ok fs →
      fs.map (fun f => YAMLField.mk f.name f.ty f.description f.required f.indexed) = yfs := by
  intro yfs
  induction yfs with
  | nil => intro fs h; unfold fieldsFromYAML at h; cases h; rfl
  | cons yf rest ih =>
    intro fs h
    unfold fieldsFromYAML at h
    by_cases hc : yamlFieldTypes.contains yf.ty = true
    · rw [if_pos hc] at h
      cases hr : fieldsFromYAML rest with
      | error e => rw [hr] at h; cases h
      | ok fs2 =>
        rw [hr] at h
        cases h
        simp only [List.map_cons]
        rw [ih fs2 hr]
        rfl
    · rw [if_neg hc] at h; cases h

/-- C4: every document that `SchemaFromYAML` parses successfully is
reproduced exactly by `Schema.ToYAML` — project, table, description and
every field's name, type, description, required and indexed values, in the
same order. -/
theorem yaml_roundtrip (doc : YAMLSchema) (now : GoTime) (s : Schema)
    (h : schemaFromYAML doc now = .ok s) : schemaToYAML s = doc := by
  unfold schemaFromYAML at h
  cases hf : fieldsFromYAML doc.fields with
  | error e => rw [hf] at h; cases h
  | ok fs =>
    rw [hf] at h
    cases h
    unfold schemaToYAML
    simp only [fieldsFromYAML_roundtrip doc.fields fs hf]

/-- C4 witness: the one-field document `wDoc` parses and round-trips to
itself. -/
theorem yaml_roundtrip_w :
    schemaFromYAML wDoc 0 = .ok wDocSchema ∧ schemaToYAML wDocSchema = wDoc :=
  ⟨rfl, yaml_roundtrip wDoc 0 wDocSchema rfl⟩

/-- Helper: a value accepted for the string type is a string value. -/
theorem convert_string_shape (x y : GoValue)
    (h : convertFieldValue x fieldTypeString = .ok y) : ∃ s, y = .vStr s := by
  cases x <;> simp [convertFieldValue] at h <;> exact ⟨_, h.symm⟩

/-- Helper: a value accepted for the int type is an int64 value. -/
theorem convert_int_shape (x y : GoValue)
    (h : convertFieldValue x fieldTypeInt = .ok y) : ∃ n, y = .vInt64 n := by
  cases x <;> simp [convertFieldValue] at h
  case vStr v =>
    cases hp : goParseInt v <;> simp [hp] at h
    exact ⟨_, h.symm⟩
  all_goals exact ⟨_, h.symm⟩

/-- Helper: a value accepted for the float type is a float64 value. -/
theorem convert_float_shape (x y : GoValue)
    (h : convertFieldValue x fieldTypeFloat = .ok y) : ∃ q, y = .vFloat q := by
  cases x <;> simp [convertFieldValue] at h
  case vStr v =>
    cases hp : goParseFloat v <;> simp [hp] at h
    exact ⟨_, h.symm⟩
  all_goals exact ⟨_, h.symm⟩

/-- Helper: a value accepted for the bool type is a bool value. -/
theorem convert_bool_shape (x y : GoValue)
    (h : convertFieldValue x fieldTypeBool = .ok y) : ∃ b, y = .vBool b := by
  cases x <;> simp [convertFieldValue] at h
  case vStr v =>
    cases hp : goParseBool v <;> simp [hp] at h
    exact ⟨_, h.symm⟩
  all_goals exact ⟨_, h.symm⟩

/-- Helper: a value accepted for the datetime type is a time value. -/
theorem convert_datetime_shape (x y : GoValue)
    (h : convertFieldValue x fieldTypeDateTime = .ok y) : ∃ t, y = .vTime t := by
  cases x <;> simp [convertFieldValue] at h
  case vStr v =>
    cases hp : goParseRFC3339 v <;> simp [hp] at h
    exact ⟨_, h.symm⟩
  all_goals exact ⟨_, h.symm⟩

/-- Helper: a value accepted for the time type is a time value. -/
theorem convert_time_shape (x y : GoValue)
    (h : convertFieldValue x fieldTypeTime = .ok y) : ∃ t, y = .vTime t := by
  cases x <;> simp [convertFieldValue] at h
  case vStr v =>
    cases hp : goParseClock v <;> simp [hp] at h
    exact ⟨_, h.symm⟩

/-- Helper: a value accepted for the duration type is a duration value. -/
theorem convert_duration_shape (x y : GoValue)
    (h : convertFieldValue x fieldTypeDuration = .ok y) : ∃ d, y = .vDur d := by
  cases x <;> simp [convertFieldValue] at h
  case vStr v =>
    by_cases h1 : strEndsWith v "ms" = true <;> simp [h1] at h
    · cases hp : goParseInt (strDropRight v 2) <;> simp [hp] at h
      exact ⟨_, h.symm⟩
    · by_cases h2 : strEndsWith v "s" = true <;> simp [h2] at h
      · cases hp : goParseInt (strDropRight v 1) <;> simp [hp] at h
        exact ⟨_, h.symm⟩
      · by_cases h3 : strEndsWith v "m" = true <;> simp [h3] at h
        · cases hp : goParseInt (strDropRight v 1) <;> simp [hp] at h
          exact ⟨_, h.symm⟩
        · by_cases h4 : strEndsWith v "h" = true <;> simp [h4] at h
          · cases hp : goParseInt (strDropRight v 1) <;> simp [hp] at h
            exact ⟨_, h.symm⟩
          · cases hp : goParseDuration v <;> simp [hp] at h
            exact ⟨_, h.symm⟩
  all_goals exact ⟨_, h.symm⟩

/-- Helper: every character escapes to at least one character. -/
theorem jsonEscapeChar_len (c : Char) : 1 ≤ (jsonEscapeChar c).length := by
  unfold jsonEscapeChar
  repeat' split
  all_goals simp

/-- Helper: escaping does not shorten a character list. -/
theorem flatMap_escape_len (cs : List Char) :
    cs.length ≤ (cs.flatMap jsonEscapeChar).length := by
  induction cs with
  | nil => simp
  | cons c rest ih =>
    simp only [List.flatMap_cons, List.length_append, List.length_cons]
    have := jsonEscapeChar_len c
    omega

/-- Helper: JSON-encoding a string yields a strictly longer string, hence a
different one. -/
theorem jsonMarshal_vStr_ne (s : String) : jsonMarshal (.vStr s) ≠ s := by
  intro h
  have hlen : (jsonMarshal (.vStr s)).length = s.length := congrArg String.length h
  have hform : jsonMarshal (.vStr s) = "\"" ++ jsonEscape s ++ "\"" := by rw [jsonMarshal]
  rw [hform] at hlen
  simp only [String.length_append] at hlen
  have hesc : s.length ≤ (jsonEscape s).length := flatMap_escape_len s.toList
  have hq : ("\"" : String).length = 1 := rfl
  omega

/-- C5 (counterexample): coercion is not idempotent for the `time` field
type — `"12:00:00"` is accepted, but coercing the resulting typed time
again fails. -/
theorem time_coercion_not_idempotent :
    convertFieldValue (.vStr "12:00:00") fieldTypeTime = .ok (.vTime 43200000000000) ∧
    convertFieldValue (.vTime 43200000000000) fieldTypeTime
      = .error "cannot convert time.Time to time" := ⟨rfl, rfl⟩

/-- C5 (amended): coercion is idempotent for the field types string, int,
float, bool, datetime and duration; it is not for time (the typed result is
rejected by a second coercion) nor for json/rest (a second coercion
re-encodes the already-encoded string into a different string). -/
theorem coercion_idempotence_amended (T : FieldType) (x y : GoValue) :
    (T = fieldTypeString ∨ T = fieldTypeInt ∨ T = fieldTypeFloat ∨ T = fieldTypeBool ∨
       T = fieldTypeDateTime ∨ T = fieldTypeDuration →
       convertFieldValue x T = .ok y → convertFieldValue y T = .ok y) ∧
    (convertFieldValue x fieldTypeTime = .ok y →
       convertFieldValue y fieldTypeTime = .error "cannot convert time.Time to time") ∧
    (convertFieldValue x fieldTypeJSON = .ok y → convertFieldValue y fieldTypeJSON ≠ .ok y) ∧
    (convertFieldValue x fieldTypeRest = .ok y → convertFieldValue y fieldTypeRest ≠ .ok y) := by
  refine ⟨?_, ?_, ?_, ?_⟩
  · rintro (rfl | rfl | rfl | rfl | rfl | rfl) h
    · obtain ⟨s, rfl⟩ := convert_string_shape x y h; rfl
    · obtain ⟨n, rfl⟩ := convert_int_shape x y h; rfl
    · obtain ⟨q, rfl⟩ := convert_float_shape x y h; rfl
    · obtain ⟨b, rfl⟩ := convert_bool_shape x y h; rfl
    · obtain ⟨t, rfl⟩ := convert_datetime_shape x y h; rfl
    · obtain ⟨d, rfl⟩ := convert_duration_shape x y h; rfl
  · intro h
    obtain ⟨t, rfl⟩ := convert_time_shape x y h; rfl
  · intro h hcontra
    have hy : y = .vStr (jsonMarshal x) := by
      simpa [convertFieldValue] using h.symm
    subst hy
    have : jsonMarshal (GoValue.vStr (jsonMarshal x)) = jsonMarshal x := by
      simpa [convertFieldValue] using hcontra
    exact jsonMarshal_vStr_ne (jsonMarshal x) this
  · intro h hcontra
    have hy : y = .vStr (jsonMarshal x) := by
      simpa [convertFieldValue] using h.symm
    subst hy
    have : jsonMarshal (GoValue.vStr (jsonMarshal x)) = jsonMarshal x := by
      simpa [convertFieldValue] using hcontra
    exact jsonMarshal_vStr_ne (jsonMarshal x) this

/-- C5 witness: idempotence at concrete accepted inputs — the string "3.5"
as a float and the numeric 7 as an int. -/
theorem coercion_idempotence_amended_w :
    convertFieldValue (.vStr "3.5") fieldTypeFloat = .ok (.vFloat (7 / 2)) ∧
    convertFieldValue (.vFloat (7 / 2)) fieldTypeFloat = .ok (.vFloat (7 / 2)) ∧
    convertFieldValue (.vInt 7) fieldTypeInt = .ok (.vInt64 7) ∧
    convertFieldValue (.vInt64 7) fieldTypeInt = .ok (.vInt64 7) := by
  have hq : ((3 : Rat) + (5 : Rat) / ((10 : Rat) ^ (1 : Nat))) = 7 / 2 := by norm_num
  have h1 : convertFieldValue (.vStr "3.5") fieldTypeFloat = .ok (.vFloat (7 / 2)) := by
    show Except.ok (GoValue.vFloat ((3 : Rat) + (5 : Rat) / ((10 : Rat) ^ (1 : Nat)))) = _
    rw [hq]
  have h2 := (coercion_idempotence_amended fieldTypeFloat (.vStr "3.5") (.vFloat (7 / 2))).1
    (Or.inr (Or.inr (Or.inl rfl))) h1
  have h3 : convertFieldValue (.vInt 7) fieldTypeInt = .ok (.vInt64 7) := rfl
  have h4 := (coercion_idempotence_amended fieldTypeInt (.vInt 7) (.vInt64 7)).1
    (Or.inr (Or.inl rfl)) h3
  exact ⟨h1, h2, h3, h4⟩

/-- Helper: characterization of the name-freshness chain — non-empty names,
no duplicates, and disjointness from the initial seen set. -/
theorem namesFresh_iff (fs : List Field) : ∀ seen : List String,
    namesFresh fs seen = true ↔
      ((∀ f ∈ fs, f.name ≠ "") ∧ (fs.map Field.name).Nodup ∧
        ∀ f ∈ fs, seen.contains f.name = false) := by
  induction fs with
  | nil => intro seen; simp [namesFresh]
  | cons f rest ih =>
    intro seen
    simp only [namesFresh, Bool.and_eq_true, Bool.not_eq_true', beq_eq_false_iff_ne,
      ne_eq, ih (f.name :: seen), List.map_cons, List.nodup_cons, List.mem_cons,
      List.mem_map]
    constructor
    · rintro ⟨⟨hne, hnc⟩, hall, hnodup, hfr⟩
      refine ⟨?_, ⟨?_, hnodup⟩, ?_⟩
      · rintro g (rfl | hg)
        · exact hne
        · exact hall g hg
      · rintro ⟨g, hg, hgname⟩
        have := hfr g hg
        simp only [List.contains_cons] at this
        rw [hgname] at this
        simp at this
      · rintro g (rfl | hg)
        · exact hnc
        · have := hfr g hg
          simp only [List.contains_cons] at this
          exact (Bool.or_eq_false_iff.mp this).2
    · rintro ⟨hall, ⟨hnotin, hnodup⟩, hfr⟩
      refine ⟨⟨hall f (Or.inl rfl), hfr f (Or.inl rfl)⟩, ?_, hnodup, ?_⟩
      · intro g hg
        exact hall g (Or.inr hg)
      · intro g hg
        simp only [List.contains_cons, Bool.or_eq_false_iff]
        constructor
        · simp only [beq_eq_false_iff_ne, ne_eq]
          intro hgf
          exact hnotin ⟨g, hg, hgf⟩
        · exact hfr g (Or.inr hg)

/-- Helper: structurally well-formed field lists have non-empty names. -/
theorem wfFieldList_names_ne :
    ∀ fs : List Field, wfFieldList fs = true → ∀ f ∈ fs, f.name ≠ "" := by
  intro fs
  induction fs with
  | nil => intro _ f hf; cases hf
  | cons g rest ih =>
    intro h f hf
    rw [wfFieldList] at h
    obtain ⟨hg, hrest⟩ : wfField g = true ∧ wfFieldList rest = true := by simpa using h
    cases hf with
    | head =>
      cases g with
      | mk name ty req idx d subs it =>
        rw [wfField] at hg
        have hne : ¬ (name = "") := by
          rcases (by simpa using hg : ¬ (name = "") ∧ _) with ⟨h1, _⟩
          exact h1
        simpa [Field.name] using hne
    | tail _ hmem => exact ih hrest f hmem

/-- Helper: on success `validateField` returns the seen set extended with
the field's name. -/
theorem validateField_ok_val (f : Field) (seen out : List String)
    (h : validateField f seen = .ok out) : out = f.name :: seen := by
  cases f with
  | mk name ty req idx d subs it =>
    unfold validateField at h
    repeat' split at h
    all_goals simp_all [Field.name]

@[simp] theorem except_isOk_ok {ε α : Type} (a : α) :
    (Except.ok a : Except ε α).isOk = true := rfl

@[simp] theorem except_isOk_error {ε α : Type} (e : ε) :
    (Except.error e : Except ε α).isOk = false := rfl

/-- Helper: `nodupNames` is `List.Nodup` on the name list. -/
theorem nodupNames_iff (ns : List String) : nodupNames ns = true ↔ ns.Nodup := by
  induction ns with
  | nil => simp [nodupNames]
  | cons n rest ih =>
    simp [nodupNames, List.nodup_cons, ih, List.elem_iff]

/-- Helper: freshness against the empty seen set is exactly non-empty,
duplicate-free names. -/
theorem namesFresh_nil_iff (fs : List Field) :
    namesFresh fs [] = true ↔ ((∀ f ∈ fs, f.name ≠ "") ∧ (fs.map Field.name).Nodup) := by
  rw [namesFresh_iff]
  simp

/-- Helper: rephrasing of the validation of a root field list in terms of
duplicate-freedom. -/
theorem fieldList_ok_nil_iff (fs : List Field)
    (hiff : (validateFieldList fs []).isOk = true ↔
      (namesFresh fs [] = true ∧ wfFieldList fs = true)) :
    (validateFieldList fs []).isOk = true ↔
      ((fs.map Field.name).Nodup ∧ wfFieldList fs = true) := by
  rw [hiff, namesFresh_nil_iff]
  constructor
  · rintro ⟨⟨_, hnodup⟩, hwf⟩; exact ⟨hnodup, hwf⟩
  · rintro ⟨hnodup, hwf⟩; exact ⟨⟨wfFieldList_names_ne fs hwf, hnodup⟩, hwf⟩

/-- Helper: joint characterization of `validateField` and
`validateFieldList` by strong induction on size. -/
theorem validate_iff_aux : ∀ N : Nat,
    (∀ f : Field, sizeOf f ≤ N → ∀ seen : List String,
      ((validateField f seen).isOk = true ↔
        (f.name ≠ "" ∧ f.name ∉ seen ∧ wfField f = true))) ∧
    (∀ fs : List Field, sizeOf fs ≤ N → ∀ seen : List String,
      ((validateFieldList fs seen).isOk = true ↔
        (namesFresh fs seen = true ∧ wfFieldList fs = true))) := by
  intro N
  induction N using Nat.strong_induction_on with
  | _ N ih =>
    constructor
    · intro f hfN seen
      cases f with
      | mk name ty req idx d subs it =>
        have hsubs : sizeOf subs < N := by
          have := Field.mk.sizeOf_spec name ty req idx d subs it
          omega
        rw [validateField, wfField]
        by_cases h1 : name = ""
        · simp [h1, Field.name]
        · by_cases h2 : name ∈ seen
          · simp [h1, h2, Field.name]
          · by_cases h3 : ty ∈ basicFieldTypes
            · simp [h1, h2, h3, Field.name]
            · simp [basicFieldTypes] at h3
              by_cases h4 : ty = fieldTypeObject
              · by_cases h5 : subs = []
                · simp [h1, h2, h3, h4, h5, basicFieldTypes, Field.name]
                · have hfiff := fieldList_ok_nil_iff subs
                    ((ih (sizeOf subs) hsubs).2 subs le_rfl [])
                  cases hv : validateFieldList subs [] with
                  | error e =>
                    rw [hv] at hfiff
                    simp only [except_isOk_error, Bool.false_eq_true, false_iff] at hfiff
                    simp [h1, h2, h3, h4, h5, hv, basicFieldTypes, Field.name, nodupNames_iff]
                    intro hnodup
                    cases hwf : wfFieldList subs with
                    | false => rfl
                    | true => exact absurd ⟨hnodup, hwf⟩ hfiff
                  | ok out =>
                    rw [hv] at hfiff
                    simp only [except_isOk_ok, true_iff] at hfiff
                    simp [h1, h2, h3, h4, h5, hv, basicFieldTypes, Field.name, nodupNames_iff]
                    exact hfiff
              · by_cases h6 : ty = fieldTypeArray
                · by_cases h7 : it = ""
                  · simp [h1, h2, h3, h4, h6, h7, basicFieldTypes, validArrayItemTypes, Field.name, Field.itemType]
                  · by_cases h8 : it ∈ validArrayItemTypes
                    · simp [h1, h2, h3, h4, h6, h7, h8, basicFieldTypes, Field.name]
                    · simp [validArrayItemTypes] at h8
                      simp [h1, h2, h3, h4, h6, h7, h8, basicFieldTypes,
                        validArrayItemTypes, Field.name]
                · rw [show fieldTypeObject = "object" from rfl] at h4
                  rw [show fieldTypeArray = "array" from rfl] at h6
                  simp [h1, h2, h3, h4, h6, basicFieldTypes, Field.name]
    · intro fs hfsN seen
      cases fs with
      | nil => simp [validateFieldList, namesFresh, wfFieldList]
      | cons f rest =>
        have hsz := List.cons.sizeOf_spec f rest
        have hfN : sizeOf f < N := by omega
        have hrestN : sizeOf rest < N := by omega
        have hfield := (ih (sizeOf f) hfN).1 f le_rfl seen
        have hlist := (ih (sizeOf rest) hrestN).2 rest le_rfl (f.name :: seen)
        rw [validateFieldList]
        cases hv : validateField f seen with
        | error e =>
          rw [hv] at hfield
          simp only [except_isOk_error, Bool.false_eq_true, false_iff] at hfield
          simp [namesFresh, wfFieldList]
          simp_all only [Bool.not_eq_true]
          tauto
        | ok out =>
          have hout := validateField_ok_val f seen out hv
          subst hout
          rw [hv] at hfield
          simp only [except_isOk_ok, true_iff] at hfield
          obtain ⟨hne, hnc, hwf⟩ := hfield
          rw [hlist]
          simp [namesFresh, wfFieldList, hne, hnc, hwf]

/-- C2 (counterexample): a schema with a non-empty project and table and an
empty field list satisfies every condition of the claim (field-name
uniqueness, structural rules, declared types, non-empty project/table
— all vacuously for fields), yet `Schema.Validate` rejects it. -/
theorem schema_validate_claim_counterexample :
    claimC2Pred wEmptySchema = true ∧
    wEmptySchema.validate = .error "at least one field is required" := ⟨rfl, rfl⟩

/-- C2 (amended): `Schema.Validate` succeeds exactly when the project and
table are non-empty, the schema has at least one field, the (sibling) field
names are non-empty and unique, and every field satisfies the structural
rules of its declared type (recursively for object sub-fields). -/
theorem schema_validate_ok_iff (s : Schema) :
    s.validate = .ok () ↔
      (s.project ≠ "" ∧ s.table ≠ "" ∧ s.fields ≠ [] ∧
       (∀ f ∈ s.fields, f.name ≠ "") ∧ (s.fields.map Field.name).Nodup ∧
       wfFieldList s.fields = true) := by
  unfold Schema.validate
  by_cases h1 : s.project = ""
  · simp [h1]
  · by_cases h2 : s.table = ""
    · simp [h1, h2]
    · by_cases h3 : s.fields.isEmpty = true
      · have : s.fields = [] := List.isEmpty_iff.mp h3
        simp [h1, h2, h3, this]
      · have hne : s.fields ≠ [] := by
          intro hcontra; rw [hcontra] at h3; exact h3 rfl
        have hiff := (validate_iff_aux (sizeOf s.fields)).2 s.fields le_rfl []
        rw [namesFresh_nil_iff] at hiff
        rw [if_neg h1, if_neg h2, if_neg h3]
        cases hv : validateFieldList s.fields [] with
        | error e =>
          rw [hv] at hiff
          simp only [except_isOk_error, Bool.false_eq_true, false_iff] at hiff
          simp only [hv]
          constructor
          · intro h; exact Except.noConfusion h
          · rintro ⟨_, _, _, hallne, hnodup, hwf⟩
            exact absurd ⟨⟨hallne, hnodup⟩, hwf⟩ hiff
        | ok out =>
          rw [hv] at hiff
          simp only [except_isOk_ok, true_iff] at hiff
          obtain ⟨⟨hallne, hnodup⟩, hwf⟩ := hiff
          simp only [hv]
          constructor
          · intro _
            exact ⟨h1, h2, hne, hallne, hnodup, hwf⟩
          · intro _
            trivial

/-- C2 witness: the amended equivalence evaluated at the one-field schema
`wSchema`, which validates successfully. -/
theorem schema_validate_ok_iff_w : wSchema.validate = .ok () := by
  rw [schema_validate_ok_iff wSchema]
  refine ⟨by decide, by decide, by simp [wSchema], ?_, ?_, by decide⟩
  · intro f hf
    simp only [wSchema, List.mem_singleton] at hf
    subst hf
    decide
  · simp [wSchema, wField, Field.name]

/-- Helper: a field that passes its per-field check is stepped over by the
`ValidateLogEntry` field loop. -/
theorem checkEntryFields_step (ef : List (String × GoValue)) (g : Field) (rest : List Field)
    (hg : fieldPasses ef g = true) :
    checkEntryFields ef (g :: rest) = checkEntryFields ef rest := by
  rw [checkEntryFields]
  by_cases h1 : g.ty = fieldTypeRest
  · rw [if_pos h1]
  · rw [if_neg h1]
    by_cases h2 : strToLower g.name = "level" ∨ strToLower g.name = "message" ∨
        strToLower g.name = "timestamp"
    · rw [if_pos h2]
    · rw [if_neg h2]
      rw [not_or, not_or] at h2
      have h2a := h2.1
      have h2b := h2.2.1
      have h2c := h2.2.2
      have h1l : ¬ (g.ty = "rest") := by simpa using h1
      cases hl : lookupAssoc ef (strToLower g.name) with
      | none =>
        have hreq : g.required = false := by
          simpa [fieldPasses, h1l, h2a, h2b, h2c, hl] using hg
        simp [hl, hreq]
      | some v =>
        have hv : (validateFieldValue g.ty v).isOk = true := by
          simpa [fieldPasses, h1l, h2a, h2b, h2c, hl] using hg
        cases hvv : validateFieldValue g.ty v with
        | error e => rw [hvv] at hv; exact absurd hv (by simp)
        | ok u => simp [hl, hvv]

/-- Helper: the field loop succeeds when every field passes its check. -/
theorem checkEntryFields_all_ok (ef : List (String × GoValue)) :
    ∀ fs : List Field, (∀ f ∈ fs, fieldPasses ef f = true) →
      checkEntryFields ef fs = .ok () := by
  intro fs
  induction fs with
  | nil => intro _; rfl
  | cons g rest ih =>
    intro hall
    rw [checkEntryFields_step ef g rest (hall g (by simp))]
    exact ih (fun f hf => hall f (by simp [hf]))

/-- Helper: the field loop reports the first required, non-implicit,
non-rest field that is absent from the entry. -/
theorem checkEntryFields_missing (ef : List (String × GoValue)) (f : Field)
    (hfr : ¬ f.ty = fieldTypeRest)
    (hfs : ¬ (strToLower f.name = "level" ∨ strToLower f.name = "message" ∨
        strToLower f.name = "timestamp"))
    (habs : lookupAssoc ef (strToLower f.name) = none)
    (hreq : f.required = true) :
    ∀ pre post : List Field, (∀ g ∈ pre, fieldPasses ef g = true) →
      checkEntryFields ef (pre ++ f :: post) = .error ("缺少必填字段: " ++ f.name) := by
  intro pre
  induction pre with
  | nil =>
    intro post _
    simp only [List.nil_append]
    rw [checkEntryFields, if_neg hfr, if_neg hfs]
    simp [habs, hreq]
  | cons g rest ih =>
    intro post hall
    simp only [List.cons_append]
    rw [checkEntryFields_step ef g _ (hall g (by simp))]
    exact ih post (fun x hx => hall x (by simp [hx]))

/-- C7 (counterexample): the implicit `ip` column is not excluded from the
required-field check — a schema declaring a required field named `ip`
rejects a record that lacks it, although the claim says `ip` is one of the
four excluded implicit fields. -/
theorem ip_field_not_excluded :
    validateLogEntry wIpSchema wBad = .error "缺少必填字段: ip" := rfl

/-- C7 (amended): the required-field check skips rest-typed fields and the
fields named (case-insensitively) level, message and timestamp — but not
ip; a record passing the base checks is accepted when every remaining field
is either present with a shape-valid value or absent and optional, and the
first required, non-implicit, non-rest field absent from the record yields
the missing-field error naming it. -/
theorem required_check_rules (s : Schema) (entry : LogEntry) :
    (baseChecksPass s entry → (∀ f ∈ s.fields, fieldPasses entry.fields f = true) →
      (validateLogEntry s entry).isOk = true) ∧
    (∀ pre f post, baseChecksPass s entry → s.fields = pre ++ f :: post →
      (∀ g ∈ pre, fieldPasses entry.fields g = true) →
      ¬ f.ty = fieldTypeRest →
      ¬ (strToLower f.name = "level" ∨ strToLower f.name = "message" ∨
          strToLower f.name = "timestamp") →
      lookupAssoc entry.fields (strToLower f.name) = none →
      f.required = true →
      validateLogEntry s entry = .error ("缺少必填字段: " ++ f.name)) := by
  constructor
  · rintro ⟨hp, ht, hl, hm, hts⟩ hall
    unfold validateLogEntry
    rw [if_neg (by simp [hp, ht]), if_neg hl, if_neg hm, if_neg hts]
    simp only [checkEntryFields_all_ok entry.fields s.fields hall]
    cases hr : findRestField s.fields with
    | none => simp [hr]
    | some rf =>
      simp only [hr]
      split <;> simp
  · rintro pre f post ⟨hp, ht, hl, hm, hts⟩ hsplit hpre hfr hfs habs hreq
    unfold validateLogEntry
    rw [if_neg (by simp [hp, ht]), if_neg hl, if_neg hm, if_neg hts]
    rw [hsplit, checkEntryFields_missing entry.fields f hfr hfs habs hreq pre post hpre]

/-- C7 witness: the `user_id` schema rejects the record lacking `user_id`
with the missing-field error and accepts the record carrying it. -/
theorem required_check_rules_w :
    validateLogEntry wSchema wBad = .error "缺少必填字段: user_id" ∧
    (validateLogEntry wSchema wGood).isOk = true := by
  constructor
  · exact (required_check_rules wSchema wBad).2 [] wField []
      ⟨rfl, rfl, by decide, by decide, by decide⟩ rfl
      (by intro g hg; cases hg) (by decide) (by decide) rfl rfl
  · exact (required_check_rules wSchema wGood).1
      ⟨rfl, rfl, by decide, by decide, by decide⟩
      (by intro f hf
          simp only [wSchema, List.mem_singleton] at hf
          subst hf
          decide)

/-- Helper: the shared batch-insert loop aborts with the wrapped validation
error of the first failing record, with every earlier record validating
successfully. -/
theorem batchInsertLoop_error (validate : LogEntry → Except String LogEntry)
    (mkRow : LogEntry → Row) (bad : LogEntry) (e : String)
    (hbad : validate bad = .error e) :
    ∀ (pre suf : List LogEntry) (buf : List Row),
      (∀ g ∈ pre, (validate g).isOk = true) →
      (batchInsertLoop validate mkRow (pre ++ bad :: suf) buf).1
        = some ("日志数据验证失败: " ++ e) := by
  intro pre
  induction pre with
  | nil =>
    intro suf buf _
    simp only [List.nil_append]
    simp [batchInsertLoop, hbad]
  | cons g rest ih =>
    intro suf buf hall
    simp only [List.cons_append]
    have hg := hall g (by simp)
    cases hv : validate g with
    | error e2 => rw [hv] at hg; exact absurd hg (by simp)
    | ok gv =>
      simp only [batchInsertLoop, hv]
      exact ih suf (buf ++ [mkRow gv]) (fun x hx => hall x (by simp [hx]))

/-- C1: for every backend driver, a batch insert in which some record fails
validation (all records before it validating successfully) persists zero
records — the returned state is the initial state, the single transaction
never committing — and the returned error wraps that record's validation
failure.  The Postgres, MySQL and ClickHouse drivers are translated from
the source; the SQLite driver is modelled from the spec. -/
theorem batch_all_or_nothing (st : DBState) (qs p t : String) (schema : Schema)
    (pre suf : List LogEntry) (bad : LogEntry) (e : String)
    (hg : getSchemaDB st p t = some schema)
    (hpre : ∀ g ∈ pre, (validateLogEntry schema g).isOk = true)
    (hbad : validateLogEntry schema bad = .error e) :
    pgBatchInsertLogs st qs p t (pre ++ bad :: suf)
      = (some ("日志数据验证失败: " ++ e), st) ∧
    mysqlBatchInsertLogs st p t (pre ++ bad :: suf)
      = (some ("日志数据验证失败: " ++ e), st) ∧
    chBatchInsertLogs st p t (pre ++ bad :: suf)
      = (some ("日志数据验证失败: " ++ e), st) ∧
    sqliteBatchInsertLogs st p t (pre ++ bad :: suf)
      = (some ("日志数据验证失败: " ++ e), st) := by
  have hne : (pre ++ bad :: suf).isEmpty = false := by cases pre <;> rfl
  refine ⟨?_, ?_, ?_, ?_⟩
  · simp only [pgBatchInsertLogs, hne, hg, Bool.false_eq_true, if_false]
    cases hr : batchInsertLoop (validateLogEntry schema)
        (mkPgRow (pgBatchColumns schema.fields (findRestField schema.fields))
          (findRestField schema.fields)) (pre ++ bad :: suf) [] with
    | mk o b =>
      have hl := batchInsertLoop_error (validateLogEntry schema)
        (mkPgRow (pgBatchColumns schema.fields (findRestField schema.fields))
          (findRestField schema.fields)) bad e hbad pre suf [] hpre
      rw [hr] at hl
      simp only at hl
      subst hl
      rfl
  · simp only [mysqlBatchInsertLogs, hne, hg, Bool.false_eq_true, if_false]
    cases hr : batchInsertLoop (validateLogEntry schema)
        (mkMySQLRow schema.fields) (pre ++ bad :: suf) [] with
    | mk o b =>
      have hl := batchInsertLoop_error (validateLogEntry schema)
        (mkMySQLRow schema.fields) bad e hbad pre suf [] hpre
      rw [hr] at hl
      simp only at hl
      subst hl
      rfl
  · simp only [chBatchInsertLogs, hne, hg, Bool.false_eq_true, if_false]
    cases hr : batchInsertLoop (validateLogEntry schema)
        (mkChRow schema.fields) (pre ++ bad :: suf) [] with
    | mk o b =>
      have hl := batchInsertLoop_error (validateLogEntry schema)
        (mkChRow schema.fields) bad e hbad pre suf [] hpre
      rw [hr] at hl
      simp only at hl
      subst hl
      rfl
  · simp only [sqliteBatchInsertLogs, hne, hg, Bool.false_eq_true, if_false]
    cases hr : batchInsertLoop (validateLogEntry schema)
        (mkSqliteRow schema.fields (findRestField schema.fields)) (pre ++ bad :: suf) [] with
    | mk o b =>
      have hl := batchInsertLoop_error (validateLogEntry schema)
        (mkSqliteRow schema.fields (findRestField schema.fields)) bad e hbad pre suf [] hpre
      rw [hr] at hl
      simp only at hl
      subst hl
      rfl

/-- C1 witness: a singleton batch whose record lacks the required `user_id`
field leaves every driver's state unchanged and reports the wrapped
missing-field error. -/
theorem batch_all_or_nothing_w :
    pgBatchInsertLogs wState "logs" "p" "t" [wBad]
      = (some ("日志数据验证失败: " ++ "缺少必填字段: user_id"), wState) ∧
    mysqlBatchInsertLogs wState "p" "t" [wBad]
      = (some ("日志数据验证失败: " ++ "缺少必填字段: user_id"), wState) ∧
    chBatchInsertLogs wState "p" "t" [wBad]
      = (some ("日志数据验证失败: " ++ "缺少必填字段: user_id"), wState) ∧
    sqliteBatchInsertLogs wState "p" "t" [wBad]
      = (some ("日志数据验证失败: " ++ "缺少必填字段: user_id"), wState) := by
  have h := batch_all_or_nothing wState "logs" "p" "t" wSchema [] [] wBad
    "缺少必填字段: user_id" rfl (by intro g hg; cases hg) rfl
  simpa using h

/-- Helper: any path ending in `.yaml` passes the watcher's extension
check. -/
theorem hasYamlExt_append (a : String) : hasYamlExt (a ++ ".yaml") = true := by
  have h : (a ++ ".yaml").toList = a.toList ++ ['.', 'y', 'a', 'm', 'l'] := by
    show (a ++ ".yaml").data = a.data ++ _
    rw [String.data_append]
  rw [hasYamlExt, h]
  simp

/-- Helper: the eviction scan skips entries whose derived path differs from
the event path. -/
theorem evictFirstMatch_skip (dir ev : String) :
    ∀ (pre tail : List (String × Schema)),
      (∀ kv ∈ pre, joinPath dir (schemaFileName kv.2) ≠ ev) →
      evictFirstMatch dir ev (pre ++ tail) = pre ++ evictFirstMatch dir ev tail := by
  intro pre
  induction pre with
  | nil => intro tail _; rfl
  | cons kv rest ih =>
    intro tail hall
    simp only [List.cons_append]
    rw [evictFirstMatch, if_neg (hall kv (by simp))]
    rw [ih tail (fun x hx => hall x (by simp [hx]))]

/-- Helper: the eviction scan deletes the first entry whose derived path
matches, and stops. -/
theorem evictFirstMatch_hit (dir ev : String) (kv : String × Schema)
    (post : List (String × Schema))
    (hm : joinPath dir (schemaFileName kv.2) = ev) :
    evictFirstMatch dir ev (kv :: post) = post := by
  cases kv with
  | mk k s => rw [evictFirstMatch, if_pos hm]

/-- Helper: lookup fails on a cache holding no entry under the key. -/
theorem findKey_none (k : String) :
    ∀ l : List (String × Schema), (∀ kv ∈ l, kv.1 ≠ k) →
      l.find? (fun kv => kv.1 = k) = none := by
  intro l
  induction l with
  | nil => intro _; rfl
  | cons kv rest ih =>
    intro hall
    rw [List.find?]
    have : (decide (kv.1 = k)) = false := by simp [hall kv (by simp)]
    rw [this]
    exact ih (fun x hx => hall x (by simp [hx]))

/-- C8 (counterexample): the reverse mapping from a removed file to a cache
key can collide — in `wManager` the files for `(a, b_c)` and `(a_b, c)`
both derive `dir/a_b_c.yaml`, and removing that file evicts only the first
entry, so `GetSchema("a_b", "c")` still succeeds although its
schema-definition file (named per the convention) was removed. -/
theorem eviction_wrong_entry :
    managerGetSchema (processRemoveEvent wManager "dir/a_b_c.yaml") "a_b" "c"
      = .ok wSchemaB := rfl

/-- C8 (amended): when the removed file's path reverse-maps to exactly one
cache entry (no other entry derives the same path) and that entry holds
the `(p, t)` schema, processing the removal event evicts precisely that
entry, a subsequent `GetSchema(p, t)` returns the not-found error — and the
backend state is untouched (the eviction path performs no backend call). -/
theorem eviction_rules (dir p t : String) (s : Schema)
    (pre post : List (String × Schema)) (bk : DBState)
    (hsp : s.project = p) (hst : s.table = t)
    (hpre : ∀ kv ∈ pre, joinPath dir (schemaFileName kv.2) ≠ joinPath dir (schemaFileName s))
    (hpost : ∀ kv ∈ post, joinPath dir (schemaFileName kv.2) ≠ joinPath dir (schemaFileName s))
    (hkpre : ∀ kv ∈ pre, kv.1 ≠ p ++ ":" ++ t)
    (hkpost : ∀ kv ∈ post, kv.1 ≠ p ++ ":" ++ t) :
    (processRemoveEvent ⟨dir, pre ++ (p ++ ":" ++ t, s) :: post, bk⟩
        (joinPath dir (schemaFileName s))).schemas = pre ++ post ∧
    managerGetSchema (processRemoveEvent ⟨dir, pre ++ (p ++ ":" ++ t, s) :: post, bk⟩
        (joinPath dir (schemaFileName s))) p t
      = .error ("schema not found: " ++ p ++ ":" ++ t) ∧
    (processRemoveEvent ⟨dir, pre ++ (p ++ ":" ++ t, s) :: post, bk⟩
        (joinPath dir (schemaFileName s))).backend = bk := by
  have hyaml : hasYamlExt (joinPath dir (schemaFileName s)) = true := by
    have hform : joinPath dir (schemaFileName s)
        = (dir ++ "/" ++ (s.project ++ "_" ++ s.table)) ++ ".yaml" := by
      simp [joinPath, schemaFileName, String.append_assoc]
    rw [hform]
    exact hasYamlExt_append _
  have hschemas : (processRemoveEvent ⟨dir, pre ++ (p ++ ":" ++ t, s) :: post, bk⟩
      (joinPath dir (schemaFileName s))).schemas = pre ++ post := by
    rw [processRemoveEvent, if_pos hyaml]
    show evictFirstMatch dir (joinPath dir (schemaFileName s))
        (pre ++ (p ++ ":" ++ t, s) :: post) = pre ++ post
    rw [evictFirstMatch_skip dir (joinPath dir (schemaFileName s)) pre _ hpre]
    rw [evictFirstMatch_hit dir (joinPath dir (schemaFileName s)) (p ++ ":" ++ t, s) post rfl]
  refine ⟨hschemas, ?_, ?_⟩
  · rw [managerGetSchema, hschemas]
    rw [findKey_none (p ++ ":" ++ t) (pre ++ post) ?hnone]
    case hnone =>
      intro kv hkv
      rcases List.mem_append.mp hkv with hmem | hmem
      · exact hkpre kv hmem
      · exact hkpost kv hmem
  · rw [processRemoveEvent, if_pos hyaml]

/-- C8 witness: removing the (unique) file for the cached `(p, t)` schema
evicts it; the subsequent lookup fails with the not-found error. -/
theorem eviction_rules_w :
    managerGetSchema (processRemoveEvent
        { schemasDir := "dir", schemas := [("p:t", wSchema)],
          backend := { schemaMeta := [], tables := [] } }
        (joinPath "dir" (schemaFileName wSchema))) "p" "t"
      = .error ("schema not found: " ++ "p" ++ ":" ++ "t") := by
  have h := eviction_rules "dir" "p" "t" wSchema [] [] { schemaMeta := [], tables := [] }
    rfl rfl (by intro kv hkv; cases hkv) (by intro kv hkv; cases hkv)
    (by intro kv hkv; cases hkv) (by intro kv hkv; cases hkv)
  exact h.2.1
end BlkLogs
